import Mathlib

/- Verification development for the ollama-cli-agent tool-calling core.

   Shallow embedding of:
   - src/core/agent.py   (ConversationManager, ChatAgent, tool dispatch)
   - src/tools/__init__.py (ToolRegistry: registration, auto-categorization,
     auto schema inference, execution)
   - src/core/exceptions.py (error message formats)

   Python dicts with string keys are modelled as insertion-ordered
   association lists; Python `None`-able values as `Option`; exceptions as
   `Except` / explicit outcome types.  The external LLM client is modelled
   as a script (list) of outcomes consumed one per `chat` invocation, which
   is exactly how the spec's stub-based scenarios drive the agent. -/

namespace Agent

/-! ## Python primitives -/

/-- Whether `needle` is a prefix of `hay` (on character lists). -/
def isPrefixList : List Char → List Char → Bool
  | [], _ => true
  | _ :: _, [] => false
  | a :: as, b :: bs => a == b && isPrefixList as bs

/-- Whether `needle` occurs contiguously in `hay`. -/
def isSubList (needle : List Char) : List Char → Bool
  | [] => isPrefixList needle []
  | c :: rest => isPrefixList needle (c :: rest) || isSubList needle rest

/-- Python `sub in s`: substring containment (an empty needle is contained
in everything, as in Python). -/
def strContains (s sub : String) : Bool :=
  isSubList sub.data s.data

/-- Python `str.lower()`, character by character (tool names are ASCII). -/
def pyLower (s : String) : String :=
  String.mk (s.data.map Char.toLower)

/-- Python `l[-n:]`: the last `n` elements of `l`.  For `n = 0` Python's
`l[-0:]` is `l[0:]`, the whole list, hence the explicit case. -/
def takeLast (n : Nat) (l : List α) : List α :=
  if n = 0 then l else l.drop (l.length - n)

/-! ## Tool registry: src/tools/__init__.py -/

/-- Python annotation objects as compared by `_auto_generate_schema`
(`param.annotation == int`, etc.).  `empty` is `inspect.Parameter.empty`
(no annotation); `other` is any annotation not in the mapping. -/
inductive PyAnnot where
  | empty | int | float | bool | list | dict | str | other
deriving DecidableEq

/-- `inspect.Parameter.kind` values. -/
inductive ParamKind where
  | POSITIONAL_ONLY | POSITIONAL_OR_KEYWORD | VAR_POSITIONAL | KEYWORD_ONLY | VAR_KEYWORD
deriving DecidableEq

/-- One parameter of a Python handler's signature.  `hasDefault` is
`param.default != inspect.Parameter.empty`. -/
structure Param where
  name : String
  kind : ParamKind
  annot : PyAnnot
  hasDefault : Bool
deriving DecidableEq

/-- A Python callable as the registry sees it: its signature
(`inspect.signature`) and its `__doc__` (`some ""` models an empty
docstring, which is falsy in Python).  `fid` models object identity, so two
distinct handlers are distinct values. -/
structure PyFunc where
  fid : Nat
  params : List Param
  doc : Option String
deriving DecidableEq

/-- A Python `dict[str, v]` lookup `d.get(k)` over the insertion-ordered
association-list model (keys are unique in every dict this file builds). -/
def dictGet? (d : List (String × α)) (k : String) : Option α :=
  (d.find? (fun p => p.1 == k)).map (fun p => p.2)

/-- Python `d[k] = v`: overwrite in place if the key exists, else append. -/
def dictSet (d : List (String × α)) (k : String) (v : α) : List (String × α) :=
  if d.any (fun p => p.1 == k) then
    d.map (fun p => if p.1 == k then (k, v) else p)
  else d ++ [(k, v)]

/-- `ToolRegistry._auto_categorize` (src/tools/__init__.py:65-86), verbatim
branch order; name is lowercased first. -/
def auto_categorize (name : String) : String :=
  let name_lower := pyLower name
  if strContains name_lower "generate" then "generation"
  else if ["save", "write", "store"].any (fun word => strContains name_lower word) then "storage"
  else if ["search", "find", "query"].any (fun word => strContains name_lower word) then "search"
  else if ["read", "list", "get", "fetch"].any (fun word => strContains name_lower word) then "retrieval"
  else if ["email", "send", "message"].any (fun word => strContains name_lower word) then "communication"
  else if strContains name_lower "_and_" then "combined"
  else if ["calculate", "math", "compute"].any (fun word => strContains name_lower word) then "calculation"
  else if ["password", "encrypt", "hash"].any (fun word => strContains name_lower word) then "security"
  else "utility"

/-- Type string chosen by `_auto_generate_schema` for an annotation; the
default `{"type": "string"}` survives when the annotation is absent or not
in the `int/float/bool/list/dict` chain. -/
def annotTypeString (a : PyAnnot) : String :=
  match a with
  | .int => "integer"
  | .float => "number"
  | .bool => "boolean"
  | .list => "array"
  | .dict => "object"
  | _ => "string"

/-- The docstring heuristic of `_auto_generate_schema` (lines 117-126):
the first line of `__doc__` containing both the parameter name and a colon
contributes `line.split(':', 1)[1].strip()` as the description, unless that
strip is empty. -/
def extract_param_description (doc : Option String) (param_name : String) : Option String :=
  match doc with
  | none => none
  | some d =>
    match (d.splitOn "\n").find? (fun line => strContains line param_name && strContains line ":") with
    | none => none
    | some line =>
      let desc := (String.intercalate ":" (line.splitOn ":").tail).trim
      if desc.isEmpty then none else some desc

/-- One entry of the generated `properties` object. -/
structure PropSchema where
  type : String
  description : Option String
deriving DecidableEq

/-- The generated `{type, properties, required}` schema object. -/
structure Schema where
  type : String
  properties : List (String × PropSchema)
  required : List String
deriving DecidableEq

/-- One iteration of the `_auto_generate_schema` loop body: skip
`*args`/`**kwargs`, otherwise write the property dict entry and extend
`required` when the parameter has no default. -/
def schemaStep (doc : Option String) (acc : List (String × PropSchema) × List String)
    (param : Param) : List (String × PropSchema) × List String :=
  if param.kind == ParamKind.VAR_POSITIONAL || param.kind == ParamKind.VAR_KEYWORD then
    acc
  else
    let param_schema : PropSchema :=
      ⟨annotTypeString param.annot, extract_param_description doc param.name⟩
    (dictSet acc.1 param.name param_schema,
     if param.hasDefault then acc.2 else acc.2 ++ [param.name])

/-- `ToolRegistry._auto_generate_schema` (src/tools/__init__.py:88-138):
loop over `sig.parameters`, skipping `*args`/`**kwargs`, building the
`properties` dict and the `required` list. -/
def auto_generate_schema (function : PyFunc) : Schema :=
  let pr := function.params.foldl (schemaStep function.doc) ([], [])
  ⟨"object", pr.1, pr.2⟩

/-- Spec-side (§3, claim C6): the parameters that become properties —
"every positional/keyword parameter (excluding variadic forms)". -/
def nonVariadic (params : List Param) : List Param :=
  params.filter
    (fun p => !(p.kind == ParamKind.VAR_POSITIONAL || p.kind == ParamKind.VAR_KEYWORD))

/-- Spec-side (claim C6): the claimed annotation-to-type mapping
"int→integer, float→number, bool→boolean, list→array, dict→object with
default string". -/
def specTypeMap (a : PyAnnot) : String :=
  match a with
  | .int => "integer"
  | .float => "number"
  | .bool => "boolean"
  | .list => "array"
  | .dict => "object"
  | _ => "string"

/-- `ToolInfo` dataclass (src/tools/__init__.py:16-23). -/
structure ToolInfo where
  name : String
  function : PyFunc
  description : String
  category : String
  schema : Schema
deriving DecidableEq

/-- The two dicts of `ToolRegistry`: `_tools` (dispatch map) and
`_tool_info` (metadata map). -/
structure ToolRegistryState where
  tools : List (String × PyFunc)
  tool_info : List (String × ToolInfo)
deriving DecidableEq

/-- A fresh `ToolRegistry()`. -/
def emptyRegistry : ToolRegistryState := ⟨[], []⟩

/-- `ToolRegistry.register_tool` (src/tools/__init__.py:35-63): fill in the
defaulted description (`function.__doc__ or f"{name}()"`, where an empty
docstring is falsy), category and schema, then write both dicts.  The
"already registered" warning is a log side effect only. -/
def register_tool (reg : ToolRegistryState) (name : String) (function : PyFunc)
    (description : Option String) (category : Option String) (schema : Option Schema) :
    ToolRegistryState :=
  let description :=
    match description with
    | some d => d
    | none =>
      match function.doc with
      | some d => if d.isEmpty then name ++ "()" else d
      | none => name ++ "()"
  let category :=
    match category with
    | some c => c
    | none => auto_categorize name
  let schema :=
    match schema with
    | some s => s
    | none => auto_generate_schema function
  ⟨dictSet reg.tools name function,
   dictSet reg.tool_info name ⟨name, function, description, category, schema⟩⟩

/-- The keyword-argument mapping a tool is invoked with
(`function.arguments` of a tool call, passed through as `**kwargs`).
Values are kept opaque as strings; the orchestrator never inspects them. -/
abbrev Args := List (String × String)

/-- What invoking a Python handler can do: return a value (already
stringified by the caller), raise `TypeError`, or raise anything else. -/
inductive HandlerOutcome where
  | ok (r : String)
  | typeError (msg : String)
  | raised (msg : String)
deriving DecidableEq

/-- The typed tool errors of src/core/exceptions.py that
`ToolRegistry.execute_tool` can raise, plus a generic exception
constructor for stubbed registries; the payloads are `str(e)` parts. -/
inductive ToolExc where
  | notFound (tool_name : String)
  | validation (tool_name : String) (msg : String)
  | toolError (msg : String)
  | otherExc (msg : String)
deriving DecidableEq

/-- Python `str(e)` for the exceptions above (messages built in
src/core/exceptions.py constructors). -/
def toolExcStr : ToolExc → String
  | .notFound n => s!"Tool '{n}' not found"
  | .validation n m => s!"Tool '{n}' validation failed: {m}"
  | .toolError m => m
  | .otherExc m => m

/-- The `try/except` wrapping in `execute_tool` (src/tools/__init__.py:151-158):
`TypeError` becomes `ToolValidationError`, any other exception a generic
`ToolError` with the `execution failed` message. -/
def wrapHandlerOutcome (name : String) : HandlerOutcome → Except ToolExc String
  | .ok r => .ok r
  | .typeError m => .error (.validation name m)
  | .raised m => .error (.toolError s!"Tool '{name}' execution failed: {m}")

/-- `ToolRegistry.execute_tool` (src/tools/__init__.py:146-158).  `apply`
is the semantics of calling a Python function object with `**kwargs`. -/
def execute_tool (apply : PyFunc → Args → HandlerOutcome) (reg : ToolRegistryState)
    (name : String) (kwargs : Args) : Except ToolExc String :=
  match dictGet? reg.tools name with
  | none => .error (.notFound name)
  | some f => wrapHandlerOutcome name (apply f kwargs)

/-- The `function` part of one `get_tools_schema` entry. -/
structure ToolDefFunction where
  name : String
  description : String
  parameters : Schema
deriving DecidableEq

/-- One `{type: "function", function: {...}}` entry of `get_tools_schema`. -/
structure ToolDef where
  type : String
  function : ToolDefFunction
deriving DecidableEq

/-- `ToolRegistry.get_tools_schema` (src/tools/__init__.py:177-190):
one entry per `_tool_info` value, in insertion order. -/
def get_tools_schema (reg : ToolRegistryState) : List ToolDef :=
  reg.tool_info.map (fun p => ⟨"function", ⟨p.2.name, p.2.description, p.2.schema⟩⟩)

/-- The arguments of one `register_tool` call (claim C10's registration
sequences). -/
structure RegCall where
  name : String
  function : PyFunc
  description : Option String
  category : Option String
  schema : Option Schema
deriving DecidableEq

/-- A sequence of `register_tool` calls applied in order. -/
def applyRegCalls (regs : List RegCall) (R : ToolRegistryState) : ToolRegistryState :=
  regs.foldl
    (fun r c => register_tool r c.name c.function c.description c.category c.schema) R

/-- The most recent registration under `name` in a call sequence
(claim C10's "most recently registered handler"). -/
def lastRegistered (regs : List RegCall) (name : String) : Option RegCall :=
  (regs.filter (fun c => c.name == name)).getLast?

/-! ## Conversation manager: src/core/agent.py (ConversationManager) -/

/-- One tool-call request as `_execute_tools` reads it:
`tool_call.get('function', {}).get('name')` (absent → `none`) and
`function.get('arguments', {})`. -/
structure ToolCall where
  fname : Option String
  arguments : Args
deriving DecidableEq

/-- One stored history message.  The dict keys `role`, `content`,
`timestamp` are always present; `tool_calls` / `tool_name` are present only
when passed (with a non-`None` value) to `add_message`, hence `Option`
with `none` = key absent.  Wall-clock timestamps are modelled by a
per-manager counter. -/
structure Msg where
  role : String
  content : String
  timestamp : Nat
  tool_calls : Option (List ToolCall)
  tool_name : Option String
deriving DecidableEq

/-- The mutable state of a `ConversationManager`: its history plus the
clock supplying `datetime.now()` timestamps. -/
structure ConversationState where
  history : List Msg
  clock : Nat
deriving DecidableEq

/-- A fresh `ConversationManager()`. -/
def emptyConversation : ConversationState := ⟨[], 0⟩

/-- The retention trim at the end of `ConversationManager.add_message`
(src/core/agent.py:97-102): when the history exceeds `max_history * 2` it
is rewritten to all system-role messages followed by the last
`max_history` messages (`self.history[-max_history:]`). -/
def trimHistory (max_history : Nat) (h : List Msg) : List Msg :=
  if h.length > max_history * 2 then
    h.filter (fun m => m.role == "system") ++ takeLast max_history h
  else h

/-- `ConversationManager.add_message` (src/core/agent.py:82-102): build the
message dict (optional fields merged only when non-`None`), append, trim. -/
def add_message (max_history : Nat) (cm : ConversationState) (role content : String)
    (tool_calls : Option (List ToolCall)) (tool_name : Option String) : ConversationState :=
  let msg : Msg := ⟨role, content, cm.clock, tool_calls, tool_name⟩
  ⟨trimHistory max_history (cm.history ++ [msg]), cm.clock + 1⟩

/-- One entry of the context list sent to the LLM (plain dicts built by
`get_context_messages`, plus the tool-result dicts appended to it by
`_handle_tool_calls`). -/
structure CtxMsg where
  role : String
  content : String
  tool_calls : Option (List ToolCall)
  tool_name : Option String
deriving DecidableEq

/-- `ConversationManager.get_context_messages` (src/core/agent.py:104-121):
a fresh system message, then a loop over the last `max_history` history
entries keeping only `user`/`assistant`/`tool` roles, copying the optional
tool fields when present. -/
def get_context_messages (max_history : Nat) (system_prompt : String)
    (history : List Msg) : List CtxMsg :=
  (takeLast max_history history).foldl
    (fun context msg =>
      if msg.role == "user" || msg.role == "assistant" || msg.role == "tool" then
        context ++ [⟨msg.role, msg.content, msg.tool_calls, msg.tool_name⟩]
      else context)
    [⟨"system", system_prompt, none, none⟩]

/-- The context list as the spec words it (§4.3 `contextFor`): the system
prompt entry followed by the projection of exactly those of the last
`max_history` entries whose role is `user`, `assistant` or `tool`. -/
def contextSpecMessages (max_history : Nat) (system_prompt : String)
    (history : List Msg) : List CtxMsg :=
  ⟨"system", system_prompt, none, none⟩ ::
    ((takeLast max_history history).filter
        (fun m => m.role == "user" || m.role == "assistant" || m.role == "tool")).map
      (fun m => ⟨m.role, m.content, m.tool_calls, m.tool_name⟩)

/-- Count of history entries with the given role. -/
def countRole (role : String) (h : List Msg) : Nat :=
  (h.filter (fun m => m.role == role)).length

/-- Count of non-system history entries. -/
def countNonSystem (h : List Msg) : Nat :=
  (h.filter (fun m => m.role != "system")).length

/-- A sequence of `add_message` calls, one per `(role, content)` pair, with
no optional fields — the spec's "appending N non-system messages". -/
def append_messages (max_history : Nat) (msgs : List (String × String))
    (cm : ConversationState) : ConversationState :=
  msgs.foldl (fun c p => add_message max_history c p.1 p.2 none none) cm

/-- The messages `append_messages` constructs, with the timestamps they
receive when the manager's clock starts at `startClock`. -/
def builtMsgs (startClock : Nat) : List (String × String) → List Msg
  | [] => []
  | p :: rest => ⟨p.1, p.2, startClock, none, none⟩ :: builtMsgs (startClock + 1) rest

/-! ## Snapshot aliasing: `ConversationManager.get_history`

`get_history` returns `self.history.copy()` — a fresh list object with the
same contents, never the live `self.history` reference.  To state the
aliasing claim we model list objects in a heap of numbered references;
`histRef` is the reference held in `self.history`. -/

/-- A heap of list objects: `store` maps a reference to its contents,
`histRef` is the manager's live history reference, and references `≥
nextRef` are unallocated. -/
structure HistHeap where
  store : Nat → List Msg
  histRef : Nat
  nextRef : Nat

/-- `ConversationManager.get_history` (src/core/agent.py:127-129):
`self.history.copy()` allocates a fresh list with the same contents and
returns its reference; the manager keeps holding `histRef`. -/
def heap_get_history (h : HistHeap) : Nat × HistHeap :=
  (h.nextRef,
   ⟨fun r => if r = h.nextRef then h.store h.histRef else h.store r, h.histRef, h.nextRef + 1⟩)

/-- An arbitrary in-place mutation (append, delete, reorder, clear …) of
the list object behind reference `r`. -/
def heap_mutate (h : HistHeap) (r : Nat) (f : List Msg → List Msg) : HistHeap :=
  ⟨fun x => if x = r then f (h.store x) else h.store x, h.histRef, h.nextRef⟩

/-! ## Chat agent: src/core/agent.py (ChatAgent) -/

/-- The message part of an `LLMResponse`: content plus the tool-call list.
`[]` models Python `None` and `[]` alike — `if response.message.tool_calls:`
treats both as "no tool calls". -/
structure ScriptMsg where
  content : String
  tool_calls : List ToolCall
deriving DecidableEq

/-- One outcome of an `llm_client.chat(...)` invocation: a response, a
raised `LLMError` (payload = `str(e)`), or any other raised exception. -/
inductive ChatOutcome where
  | ok (message : ScriptMsg)
  | llmError (msg : String)
  | otherError (msg : String)
deriving DecidableEq

/-- An exception travelling up to `process_message`'s two `except` arms:
an `LLMError` or anything else. -/
inductive TurnExc where
  | llm (msg : String)
  | unexpected (msg : String)
deriving DecidableEq

/-- What one user turn produces: the result (or the exception reaching
`process_message`'s handlers), the conversation state, the
`registry.execute_tool` invocations made (name, kwargs), and one entry per
`llm_client.chat` invocation recording the tools argument it was passed
(`none` = no tools schema passed). -/
structure TurnResult where
  result : Except TurnExc String
  conv : ConversationState
  tool_invocations : List (String × Args)
  llm_calls : List (Option (List ToolDef))

/-- `str(e)` of `LLMTimeoutError(timeout)` (src/core/exceptions.py:24-28). -/
def llm_timeout_error_message (timeout : Nat) : String :=
  s!"LLM request timed out after {timeout} seconds"

/-- One iteration of the loop in `ChatAgent._execute_tools`
(src/core/agent.py:227-267): resolve name and arguments, execute, and turn
success or any raised exception into a tool-role result dict.  Returns the
result dict plus the `registry.execute_tool` invocation made, if any.
A missing or empty name is falsy in Python (`if not tool_name:`), raises
`ToolError("Missing tool name in tool call")` and skips execution;
`ToolNotFoundError` is re-raised as `ToolError(f"Tool '{tool_name}' not
found")`; the catch-all formats `f"Tool execution failed: {e}"`. -/
def execOneToolCall (exec : String → Args → Except ToolExc String) (tool_call : ToolCall) :
    CtxMsg × Option (String × Args) :=
  match tool_call.fname with
  | none =>
    (⟨"tool", "Tool execution failed: Missing tool name in tool call", none, some "unknown"⟩, none)
  | some tool_name =>
    if tool_name.isEmpty then
      (⟨"tool", "Tool execution failed: Missing tool name in tool call", none, some "unknown"⟩, none)
    else
      match exec tool_name tool_call.arguments with
      | .ok result =>
        (⟨"tool", result, none, some tool_name⟩, some (tool_name, tool_call.arguments))
      | .error (.notFound _) =>
        (⟨"tool", s!"Tool execution failed: Tool '{tool_name}' not found", none, some tool_name⟩,
         some (tool_name, tool_call.arguments))
      | .error e =>
        (⟨"tool", "Tool execution failed: " ++ toolExcStr e, none, some tool_name⟩,
         some (tool_name, tool_call.arguments))

/-- `ChatAgent._execute_tools` (src/core/agent.py:223-269): every call in
the batch is processed in order; the result list plus the execute_tool
invocations actually made. -/
def execute_tools (exec : String → Args → Except ToolExc String) (tool_calls : List ToolCall) :
    List CtxMsg × List (String × Args) :=
  let rs := tool_calls.map (execOneToolCall exec)
  (rs.map (fun r => r.1), rs.filterMap (fun r => r.2))

/-- Steps 5a-5c of a tool round (`_handle_tool_calls` before the
continuation chat, src/core/agent.py:184-207): append the assistant
message carrying the raw tool_calls list, dispatch the batch, append each
result dict to the live context list and as a tool-role history message.
Returns (updated context, updated conversation, invocations made). -/
def dispatch_batch (max_history : Nat) (exec : String → Args → Except ToolExc String)
    (context : List CtxMsg) (cm : ConversationState)
    (content : String) (tool_calls : List ToolCall) :
    List CtxMsg × ConversationState × List (String × Args) :=
  let cm1 := add_message max_history cm "assistant" content (some tool_calls) none
  let er := execute_tools exec tool_calls
  let context1 := context ++ er.1
  let cm2 := er.1.foldl (fun c r => add_message max_history c "tool" r.content none r.tool_name) cm1
  (context1, cm2, er.2)

/-- `ChatAgent._handle_tool_calls` (src/core/agent.py:184-221), driven by
the remaining LLM script.  The continuation `chat(context_messages)` call
passes no tools argument (recorded as `none`); a response carrying further
tool calls recurses, otherwise the content is appended as the assistant
message and returned.  An exhausted script models a stub with no further
behaviour: the chat call raises. -/
def handle_tool_calls (max_history : Nat) (exec : String → Args → Except ToolExc String) :
    List ChatOutcome → List CtxMsg → ConversationState → String → List ToolCall → TurnResult
  | [], context, cm, content, tool_calls =>
    let d := dispatch_batch max_history exec context cm content tool_calls
    ⟨.error (.unexpected "no scripted LLM response"), d.2.1, d.2.2, [none]⟩
  | outcome :: rest, context, cm, content, tool_calls =>
    let d := dispatch_batch max_history exec context cm content tool_calls
    match outcome with
    | .llmError e => ⟨.error (.llm e), d.2.1, d.2.2, [none]⟩
    | .otherError e => ⟨.error (.unexpected e), d.2.1, d.2.2, [none]⟩
    | .ok m =>
      if m.tool_calls.isEmpty then
        ⟨.ok m.content, add_message max_history d.2.1 "assistant" m.content none none,
         d.2.2, [none]⟩
      else
        let r := handle_tool_calls max_history exec rest d.1 d.2.1 m.content m.tool_calls
        ⟨r.result, r.conv, d.2.2 ++ r.tool_invocations, none :: r.llm_calls⟩

/-- The `try` body of `ChatAgent.process_message` (src/core/agent.py:145-170):
append the user message, build the context, make the first chat call —
passing the tools schema — and either return the content directly or enter
`_handle_tool_calls`. -/
def process_try (max_history : Nat) (exec : String → Args → Except ToolExc String)
    (system_prompt : String) (tools_schema : List ToolDef)
    (script : List ChatOutcome) (user_input : String) (cm : ConversationState) : TurnResult :=
  let cm1 := add_message max_history cm "user" user_input none none
  let context := get_context_messages max_history system_prompt cm1.history
  match script with
  | [] => ⟨.error (.unexpected "no scripted LLM response"), cm1, [], [some tools_schema]⟩
  | outcome :: rest =>
    match outcome with
    | .llmError e => ⟨.error (.llm e), cm1, [], [some tools_schema]⟩
    | .otherError e => ⟨.error (.unexpected e), cm1, [], [some tools_schema]⟩
    | .ok m =>
      if m.tool_calls.isEmpty then
        ⟨.ok m.content, add_message max_history cm1 "assistant" m.content none none,
         [], [some tools_schema]⟩
      else
        let r := handle_tool_calls max_history exec rest context cm1 m.content m.tool_calls
        ⟨r.result, r.conv, r.tool_invocations, some tools_schema :: r.llm_calls⟩

/-- The turn-result text built by `process_message`'s `except` arms
(src/core/agent.py:172-182). -/
def turn_error_text : TurnExc → String
  | .llm e => "LLM Error: " ++ e
  | .unexpected e => "Unexpected error: " ++ e

/-- `ChatAgent.process_message` (src/core/agent.py:143-182): the try body,
with both `except` arms appending one error-role message and returning the
error text.  Returns (result, conversation, execute_tool invocations, chat
invocations with their tools argument). -/
def process_message (max_history : Nat) (exec : String → Args → Except ToolExc String)
    (system_prompt : String) (tools_schema : List ToolDef)
    (script : List ChatOutcome) (user_input : String) (cm : ConversationState) :
    String × ConversationState × List (String × Args) × List (Option (List ToolDef)) :=
  let r := process_try max_history exec system_prompt tools_schema script user_input cm
  match r.result with
  | .ok s => (s, r.conv, r.tool_invocations, r.llm_calls)
  | .error e =>
    let msg := turn_error_text e
    (msg, add_message max_history r.conv "error" msg none none, r.tool_invocations, r.llm_calls)

/-! # Theorems -/

/-! ## Shared helper lemmas -/

/-- A foldl that conditionally appends a projection is `filter` then `map`. -/
theorem foldl_if_append {α β : Type} (P : α → Bool) (proj : α → β) :
    ∀ (l : List α) (init : List β),
      l.foldl (fun acc m => if P m then acc ++ [proj m] else acc) init
        = init ++ (l.filter P).map proj := by
  intro l
  induction l with
  | nil => intro init; simp
  | cons a t ih =>
    intro init
    by_cases h : P a
    · simp only [List.foldl_cons, if_pos h, ih, List.filter_cons, h, ite_true, List.map_cons]
      simp [List.append_assoc]
    · simp only [List.foldl_cons, if_neg h, ih, List.filter_cons, h]
      simp

/-! ## C2: category inference -/

/-- C2 counterexample: `"generate_and_save_todo"` (the name of a shipped
plugin tool) contains `"save"`, yet its inferred category is `"generation"`,
not `"storage"` — the `'generate'` rule is checked first. -/
theorem c2_category_inference_counterexample :
    strContains (pyLower "generate_and_save_todo") "save" = true
    ∧ auto_categorize "generate_and_save_todo" = "generation"
    ∧ auto_categorize "generate_and_save_todo" ≠ "storage" := by
  refine ⟨by decide, by decide, by decide⟩

/-- C2 amended: a name containing `save`/`write`/`store` *and not
`generate`* is categorized `storage`; one containing `search`/`find`/`query`
and none of the earlier patterns is `search`; a name matching no substring
rule at all is `utility`. -/
theorem c2_category_inference_amended (name : String) :
    ((strContains (pyLower name) "save" = true ∨ strContains (pyLower name) "write" = true
        ∨ strContains (pyLower name) "store" = true) →
      strContains (pyLower name) "generate" = false →
      auto_categorize name = "storage")
    ∧ ((strContains (pyLower name) "search" = true ∨ strContains (pyLower name) "find" = true
        ∨ strContains (pyLower name) "query" = true) →
      strContains (pyLower name) "generate" = false →
      strContains (pyLower name) "save" = false → strContains (pyLower name) "write" = false →
      strContains (pyLower name) "store" = false →
      auto_categorize name = "search")
    ∧ ((∀ w ∈ ["generate", "save", "write", "store", "search", "find", "query",
          "read", "list", "get", "fetch", "email", "send", "message", "_and_",
          "calculate", "math", "compute", "password", "encrypt", "hash"],
        strContains (pyLower name) w = false) →
      auto_categorize name = "utility") := by
  refine ⟨?_, ?_, ?_⟩
  · rintro (h | h | h) hg <;> simp [auto_categorize, h, hg]
  · rintro (h | h | h) hg h1 h2 h3 <;> simp [auto_categorize, h, hg, h1, h2, h3]
  · intro h
    have g01 := h "generate" (by simp)
    have g02 := h "save" (by simp)
    have g03 := h "write" (by simp)
    have g04 := h "store" (by simp)
    have g05 := h "search" (by simp)
    have g06 := h "find" (by simp)
    have g07 := h "query" (by simp)
    have g08 := h "read" (by simp)
    have g09 := h "list" (by simp)
    have g10 := h "get" (by simp)
    have g11 := h "fetch" (by simp)
    have g12 := h "email" (by simp)
    have g13 := h "send" (by simp)
    have g14 := h "message" (by simp)
    have g15 := h "_and_" (by simp)
    have g16 := h "calculate" (by simp)
    have g17 := h "math" (by simp)
    have g18 := h "compute" (by simp)
    have g19 := h "password" (by simp)
    have g20 := h "encrypt" (by simp)
    have g21 := h "hash" (by simp)
    simp [auto_categorize, g01, g02, g03, g04, g05, g06, g07, g08, g09, g10, g11,
      g12, g13, g14, g15, g16, g17, g18, g19, g20, g21]

/-- C2 witness: the amended rules applied at one concrete name per bucket. -/
theorem c2_category_inference_witness :
    strContains (pyLower "save_x") "save" = true
    ∧ auto_categorize "save_x" = "storage"
    ∧ auto_categorize "search_x" = "search"
    ∧ auto_categorize "foo_bar" = "utility" :=
  ⟨by decide,
   (c2_category_inference_amended "save_x").1 (Or.inl (by decide)) (by decide),
   (c2_category_inference_amended "search_x").2.1 (Or.inl (by decide)) (by decide)
     (by decide) (by decide) (by decide),
   (c2_category_inference_amended "foo_bar").2.2 (by decide)⟩

/-! ## C7: context projection -/

/-- C7: the context sent to the LLM is the fresh system-prompt entry
followed by the `{role, content, tool_calls?, tool_name?}` projection of
exactly those of the last `max_history` history entries whose role is
`user`, `assistant` or `tool`, in order; stored system-role and error-role
entries are never re-included. -/
theorem c7_context_projection (max_history : Nat) (system_prompt : String)
    (history : List Msg) :
    get_context_messages max_history system_prompt history
      = contextSpecMessages max_history system_prompt history
    ∧ (get_context_messages max_history system_prompt history).head?
      = some ⟨"system", system_prompt, none, none⟩
    ∧ ((get_context_messages max_history system_prompt history).drop 1).all
        (fun m => m.role == "user" || m.role == "assistant" || m.role == "tool") = true := by
  have key : get_context_messages max_history system_prompt history
      = contextSpecMessages max_history system_prompt history := by
    unfold get_context_messages contextSpecMessages
    rw [foldl_if_append
      (fun (m : Msg) => m.role == "user" || m.role == "assistant" || m.role == "tool")
      (fun (m : Msg) => (⟨m.role, m.content, m.tool_calls, m.tool_name⟩ : CtxMsg))]
    simp
  refine ⟨key, ?_, ?_⟩
  · rw [key]; rfl
  · rw [key]
    simp only [contextSpecMessages, List.drop_succ_cons, List.drop_zero, List.all_eq_true]
    intro m hm
    obtain ⟨x, hx, rfl⟩ := List.mem_map.mp hm
    exact (List.mem_filter.mp hx).2

/-! ## C1: history trimming -/

/-- `builtMsgs` preserves length. -/
theorem builtMsgs_length : ∀ (l : List (String × String)) (s : Nat),
    (builtMsgs s l).length = l.length := by
  intro l
  induction l with
  | nil => intro s; rfl
  | cons p t ih => intro s; simp [builtMsgs, ih]

/-- `builtMsgs` distributes over append, shifting the clock. -/
theorem builtMsgs_append : ∀ (l1 l2 : List (String × String)) (s : Nat),
    builtMsgs s (l1 ++ l2) = builtMsgs s l1 ++ builtMsgs (s + l1.length) l2 := by
  intro l1
  induction l1 with
  | nil => intro l2 s; simp [builtMsgs]
  | cons p t ih =>
    intro l2 s
    have harith : s + 1 + t.length = s + (t.length + 1) := by omega
    simp only [List.cons_append, builtMsgs, List.length_cons, List.append_eq]
    rw [ih l2 (s + 1), harith]

/-- The messages `builtMsgs` constructs carry the given roles. -/
theorem builtMsgs_roles : ∀ (l : List (String × String)) (s : Nat),
    (∀ p ∈ l, p.1 ≠ "system") → ∀ m ∈ builtMsgs s l, m.role ≠ "system" := by
  intro l
  induction l with
  | nil => intro s _ m hm; simp [builtMsgs] at hm
  | cons p t ih =>
    intro s hl m hm
    rcases (by simpa [builtMsgs] using hm : m = (⟨p.1, p.2, s, none, none⟩ : Msg) ∨ m ∈ builtMsgs (s + 1) t) with h | h
    · rw [h]; exact hl p (by simp)
    · exact ih (s + 1) (fun q hq => hl q (by simp [hq])) m h

/-- A history all of whose messages are non-system counts entirely as
non-system. -/
theorem countNonSystem_of_all (h : List Msg) (hall : ∀ m ∈ h, m.role ≠ "system") :
    countNonSystem h = h.length := by
  unfold countNonSystem
  rw [List.filter_eq_self.mpr]
  intro a ha
  simpa using hall a ha

/-- `add_message` below the trim threshold is a plain append. -/
theorem add_message_no_trim (mh : Nat) (cm : ConversationState) (role content : String)
    (tc : Option (List ToolCall)) (tn : Option String)
    (hlt : cm.history.length < mh * 2) :
    add_message mh cm role content tc tn
      = ⟨cm.history ++ [⟨role, content, cm.clock, tc, tn⟩], cm.clock + 1⟩ := by
  simp only [add_message, trimHistory, List.length_append, List.length_cons,
    List.length_nil]
  rw [if_neg (by omega)]

/-- A run of appends that never crosses the trim threshold just appends
the built messages and advances the clock. -/
theorem append_messages_no_trim (mh : Nat) : ∀ (msgs : List (String × String))
    (cm : ConversationState), cm.history.length + msgs.length ≤ mh * 2 →
    append_messages mh msgs cm
      = ⟨cm.history ++ builtMsgs cm.clock msgs, cm.clock + msgs.length⟩ := by
  intro msgs
  induction msgs with
  | nil => intro cm _; simp [append_messages, builtMsgs]
  | cons p t ih =>
    intro cm hbound
    have hstep := add_message_no_trim mh cm p.1 p.2 none none (by simp at hbound; omega)
    have hrest := ih ⟨cm.history ++ [⟨p.1, p.2, cm.clock, none, none⟩], cm.clock + 1⟩
      (by simp at hbound ⊢; omega)
    simp only [append_messages, List.foldl_cons] at *
    rw [hstep, hrest]
    have harith : cm.clock + 1 + t.length = cm.clock + (t.length + 1) := by omega
    simp [builtMsgs, List.append_assoc, harith]

/-- C1 counterexample: with the default `max_history = 10`, appending
`2 × 10 + 5 = 25` non-system messages to an empty history leaves 14
non-system messages, not `max_history = 10` as claimed (one trim fires at
append 21; the last four appends stay under the threshold). -/
theorem c1_history_trim_counterexample :
    countNonSystem (append_messages 10 (List.replicate 25 ("user", "m"))
        emptyConversation).history = 14
    ∧ countNonSystem (append_messages 10 (List.replicate 25 ("user", "m"))
        emptyConversation).history ≠ 10 := by
  constructor <;> decide

/-- C1 amended: starting from an empty history, appending
`2 × max_history + 5` non-system messages (for `max_history ≥ 4`) leaves
exactly `max_history + 4` non-system messages — the last `max_history + 4`
appended, in original relative order (the history equals the built message
list with its first `max_history + 1` entries dropped); there are no prior
system messages to retain. -/
theorem c1_history_trim_amended (mh : Nat) (msgs : List (String × String))
    (hmh : 4 ≤ mh) (hlen : msgs.length = 2 * mh + 5)
    (hroles : ∀ p ∈ msgs, p.1 ≠ "system") :
    (append_messages mh msgs emptyConversation).history
      = (builtMsgs 0 msgs).drop (mh + 1)
    ∧ countNonSystem (append_messages mh msgs emptyConversation).history = mh + 4 := by
  have hAD := List.take_append_drop (2 * mh) msgs
  set A := msgs.take (2 * mh) with hA
  set D := msgs.drop (2 * mh) with hD
  have hAlen : A.length = 2 * mh := by rw [hA, List.length_take, hlen]; omega
  have hDlen : D.length = 5 := by rw [hD, List.length_drop, hlen]; omega
  obtain ⟨b, L2, hDeq⟩ : ∃ b L2, D = b :: L2 := by
    cases hcase : D with
    | nil => rw [hcase] at hDlen; simp at hDlen
    | cons x xs => exact ⟨x, xs, rfl⟩
  have hL2len : L2.length = 4 := by
    have h5 := hDlen; rw [hDeq] at h5; simpa using h5
  have hrolesA : ∀ p ∈ A, p.1 ≠ "system" := fun p hp => hroles p (List.take_subset _ _ hp)
  have hrolesD : ∀ p ∈ D, p.1 ≠ "system" := fun p hp => hroles p (List.drop_subset _ _ hp)
  have hbrole : b.1 ≠ "system" := hrolesD b (by rw [hDeq]; exact List.mem_cons_self _ _)
  have hrolesL2 : ∀ p ∈ L2, p.1 ≠ "system" :=
    fun p hp => hrolesD p (by rw [hDeq]; exact List.mem_cons_of_mem _ hp)
  have hrolesAb : ∀ p ∈ A ++ [b], p.1 ≠ "system" := by
    intro p hp
    rcases List.mem_append.mp hp with h | h
    · exact hrolesA p h
    · rw [List.mem_singleton.mp h]; exact hbrole
  -- phase 1: the first 2·mh appends never trim
  have h1 : append_messages mh A emptyConversation = ⟨builtMsgs 0 A, A.length⟩ := by
    have h1a := append_messages_no_trim mh A emptyConversation (by
      simp [emptyConversation]; omega)
    simpa [emptyConversation] using h1a
  -- the run splits at the trim point
  have hsplit : append_messages mh msgs emptyConversation
      = append_messages mh D (append_messages mh A emptyConversation) := by
    conv_lhs => rw [← hAD]
    simp [append_messages, List.foldl_append]
  -- the built prefix, with the trimming message appended
  have hAb : builtMsgs 0 (A ++ [b])
      = builtMsgs 0 A ++ [⟨b.1, b.2, A.length, none, none⟩] := by
    rw [builtMsgs_append]; simp [builtMsgs]
  have hAblen : (builtMsgs 0 (A ++ [b])).length = 2 * mh + 1 := by
    rw [builtMsgs_length]; simp [hAlen]
  -- phase 2: append 2·mh + 1 fires the trim
  have htrim : add_message mh ⟨builtMsgs 0 A, A.length⟩ b.1 b.2 none none
      = ⟨(builtMsgs 0 (A ++ [b])).drop (mh + 1), A.length + 1⟩ := by
    simp only [add_message, trimHistory]
    rw [← hAb]
    rw [if_pos (by rw [hAblen]; omega)]
    have hfilter : (builtMsgs 0 (A ++ [b])).filter (fun m => m.role == "system") = [] := by
      rw [List.filter_eq_nil_iff]
      intro m hm
      simpa using builtMsgs_roles (A ++ [b]) 0 hrolesAb m hm
    rw [hfilter]
    unfold takeLast
    rw [if_neg (by omega), hAblen]
    have harith : 2 * mh + 1 - mh = mh + 1 := by omega
    rw [harith, List.nil_append]
  -- phase 3: the last four appends never trim
  have hdroplen : ((builtMsgs 0 (A ++ [b])).drop (mh + 1)).length = mh := by
    rw [List.length_drop, hAblen]; omega
  have h3 : append_messages mh L2 ⟨(builtMsgs 0 (A ++ [b])).drop (mh + 1), A.length + 1⟩
      = ⟨(builtMsgs 0 (A ++ [b])).drop (mh + 1) ++ builtMsgs (A.length + 1) L2,
         A.length + 1 + L2.length⟩ :=
    append_messages_no_trim mh L2 _ (by rw [hdroplen, hL2len]; omega)
  -- assemble the final history
  have hmsgs2 : msgs = (A ++ [b]) ++ L2 := by
    rw [← hAD, hDeq, List.append_assoc]; rfl
  have hfull : builtMsgs 0 msgs
      = builtMsgs 0 (A ++ [b]) ++ builtMsgs (A.length + 1) L2 := by
    rw [hmsgs2, builtMsgs_append]
    have : (A ++ [b]).length = A.length + 1 := by simp
    rw [this, Nat.zero_add]
  have hfinal : (append_messages mh msgs emptyConversation).history
      = (builtMsgs 0 (A ++ [b])).drop (mh + 1) ++ builtMsgs (A.length + 1) L2 := by
    rw [hsplit, h1, hDeq]
    have hcons : append_messages mh (b :: L2) ⟨builtMsgs 0 A, A.length⟩
        = append_messages mh L2 (add_message mh ⟨builtMsgs 0 A, A.length⟩ b.1 b.2 none none) := by
      simp [append_messages, List.foldl_cons]
    rw [hcons, htrim, h3]
  constructor
  · rw [hfinal, hfull, List.drop_append_of_le_length (by rw [hAblen]; omega)]
  · rw [hfinal]
    have hallns : ∀ m ∈ (builtMsgs 0 (A ++ [b])).drop (mh + 1) ++ builtMsgs (A.length + 1) L2,
        m.role ≠ "system" := by
      intro m hm
      rcases List.mem_append.mp hm with h | h
      · exact builtMsgs_roles (A ++ [b]) 0 hrolesAb m (List.drop_subset _ _ h)
      · exact builtMsgs_roles L2 (A.length + 1) hrolesL2 m h
    rw [countNonSystem_of_all _ hallns]
    rw [List.length_append, hdroplen, builtMsgs_length, hL2len]

/-- C1 amended witness: `max_history = 4`, thirteen `user` messages. -/
theorem c1_history_trim_amended_witness :
    (List.replicate 13 ("user", "m")).length = 2 * 4 + 5
    ∧ (append_messages 4 (List.replicate 13 ("user", "m")) emptyConversation).history
        = (builtMsgs 0 (List.replicate 13 ("user", "m"))).drop 5
    ∧ countNonSystem (append_messages 4 (List.replicate 13 ("user", "m"))
        emptyConversation).history = 8 := by
  have hthm := c1_history_trim_amended 4 (List.replicate 13 ("user", "m"))
    (by omega) (by decide) (by decide)
  exact ⟨by decide, hthm.1, hthm.2⟩

/-! ## C6: auto-schema inference -/

/-- Writing a fresh key into a dict appends it. -/
theorem dictSet_not_mem {α : Type} (d : List (String × α)) (k : String) (v : α)
    (h : ∀ p ∈ d, p.1 ≠ k) : dictSet d k v = d ++ [(k, v)] := by
  unfold dictSet
  rw [if_neg]
  simp only [List.any_eq_true, beq_iff_eq, not_exists]
  rintro p ⟨hp, hpk⟩
  exact h p hp hpk

/-- Looking up a key of a dict with unique keys finds its value. -/
theorem dictGet?_of_mem_nodup {α : Type} : ∀ (d : List (String × α)) (k : String) (v : α),
    (k, v) ∈ d → (d.map (fun p => p.1)).Nodup → dictGet? d k = some v := by
  intro d
  induction d with
  | nil => intro k v hmem _; simp at hmem
  | cons q t ih =>
    intro k v hmem hnodup
    by_cases hk : q.1 = k
    · have hqv : q = (k, v) := by
        rcases List.mem_cons.mp hmem with h | h
        · exact h.symm
        · exfalso
          have : k ∈ t.map (fun p => p.1) := List.mem_map.mpr ⟨(k, v), h, rfl⟩
          rw [← hk] at this
          exact (List.nodup_cons.mp (by simpa using hnodup)).1 this
      simp [dictGet?, List.find?_cons, hk, hqv]
    · have hmem' : (k, v) ∈ t := by
        rcases List.mem_cons.mp hmem with h | h
        · exact absurd (by rw [← h]) hk
        · exact h
      have := ih k v hmem' (List.nodup_cons.mp (by simpa using hnodup)).2
      simpa [dictGet?, List.find?_cons, hk] using this

/-- The source mapping and the spec's claimed mapping agree on every
annotation. -/
theorem annotTypeString_eq_specTypeMap : ∀ a, annotTypeString a = specTypeMap a := by
  intro a; cases a <;> rfl

/-- The `_auto_generate_schema` loop, characterised: with fresh, pairwise
distinct non-variadic parameter names, `properties` and `required` are the
obvious map and filter of the parameter list. -/
theorem schema_foldl (doc : Option String) : ∀ (params : List Param)
    (props : List (String × PropSchema)) (req : List String),
    (∀ q ∈ props, ∀ p ∈ nonVariadic params, q.1 ≠ p.name) →
    ((nonVariadic params).map (fun p => p.name)).Nodup →
    params.foldl (schemaStep doc) (props, req)
      = (props ++ (nonVariadic params).map
            (fun p => (p.name,
              (⟨annotTypeString p.annot, extract_param_description doc p.name⟩ : PropSchema))),
         req ++ ((nonVariadic params).filter (fun p => !p.hasDefault)).map (fun p => p.name)) := by
  intro params
  induction params with
  | nil => intro props req _ _; simp [nonVariadic]
  | cons p t ih =>
    intro props req hfresh hnodup
    by_cases hvar : (p.kind == ParamKind.VAR_POSITIONAL || p.kind == ParamKind.VAR_KEYWORD) = true
    · have hcond : (!(p.kind == ParamKind.VAR_POSITIONAL || p.kind == ParamKind.VAR_KEYWORD))
          = false := by rw [hvar]; rfl
      have hnv : nonVariadic (p :: t) = nonVariadic t := by
        unfold nonVariadic
        rw [List.filter_cons, hcond]
        simp
      rw [hnv] at hfresh hnodup
      have hstep : schemaStep doc (props, req) p = (props, req) := by
        simp [schemaStep, hvar]
      simp only [List.foldl_cons, hstep]
      rw [ih props req hfresh hnodup, hnv]
    · have hvarf : (p.kind == ParamKind.VAR_POSITIONAL || p.kind == ParamKind.VAR_KEYWORD) = false := by
        simpa using hvar
      have hcond : (!(p.kind == ParamKind.VAR_POSITIONAL || p.kind == ParamKind.VAR_KEYWORD))
          = true := by rw [hvarf]; rfl
      have hnv : nonVariadic (p :: t) = p :: nonVariadic t := by
        unfold nonVariadic
        rw [List.filter_cons, hcond]
        simp
      rw [hnv] at hfresh hnodup
      have hdict : dictSet props p.name
            (⟨annotTypeString p.annot, extract_param_description doc p.name⟩ : PropSchema)
          = props ++ [(p.name,
              (⟨annotTypeString p.annot, extract_param_description doc p.name⟩ : PropSchema))] :=
        dictSet_not_mem _ _ _ (fun q hq => hfresh q hq p (List.mem_cons_self _ _))
      have hps : schemaStep doc (props, req) p
          = (props ++ [(p.name,
              (⟨annotTypeString p.annot, extract_param_description doc p.name⟩ : PropSchema))],
             if p.hasDefault then req else req ++ [p.name]) := by
        simp only [schemaStep, hvarf, Bool.false_eq_true, if_false]
        rw [hdict]
      have hnamefresh : p.name ∉ (nonVariadic t).map (fun x => x.name) :=
        (List.nodup_cons.mp (by simpa using hnodup)).1
      have hfresh' : ∀ q ∈ props ++ [(p.name,
            (⟨annotTypeString p.annot, extract_param_description doc p.name⟩ : PropSchema))],
          ∀ x ∈ nonVariadic t, q.1 ≠ x.name := by
        intro q hq x hx
        rcases List.mem_append.mp hq with h | h
        · exact hfresh q h x (List.mem_cons_of_mem _ hx)
        · rw [List.mem_singleton.mp h]
          intro hcon
          have hpx : p.name = x.name := by simpa using hcon
          exact hnamefresh (List.mem_map.mpr ⟨x, hx, hpx.symm⟩)
      have hnodup' : ((nonVariadic t).map (fun x => x.name)).Nodup :=
        (List.nodup_cons.mp (by simpa using hnodup)).2
      simp only [List.foldl_cons, hps]
      rw [ih _ _ hfresh' hnodup', hnv]
      simp only [Prod.mk.injEq]
      constructor
      · simp [List.append_assoc]
      · cases hd : p.hasDefault with
        | true => simp [List.filter_cons, hd]
        | false => simp [List.filter_cons, hd, List.append_assoc]

/-- C6: auto-schema inference.  In general (for signatures with distinct
parameter names, as Python guarantees): every non-variadic parameter
becomes a property in order, the property's `type` follows the claimed
annotation mapping, and `required` consists of exactly the parameters
without a default.  Specifically, for `f(a: str, b: int = 0)` the schema
has `required == ["a"]` and `properties.b.type == "integer"`. -/
theorem c6_auto_schema :
    (∀ function : PyFunc,
      ((nonVariadic function.params).map (fun p => p.name)).Nodup →
      (auto_generate_schema function).properties
          = (nonVariadic function.params).map
              (fun p => (p.name, (⟨annotTypeString p.annot,
                  extract_param_description function.doc p.name⟩ : PropSchema)))
        ∧ (auto_generate_schema function).required
          = ((nonVariadic function.params).filter (fun p => !p.hasDefault)).map (fun p => p.name)
        ∧ (∀ p ∈ nonVariadic function.params,
            (dictGet? (auto_generate_schema function).properties p.name).map (fun s => s.type)
              = some (specTypeMap p.annot))
        ∧ (∀ p ∈ nonVariadic function.params,
            (p.name ∈ (auto_generate_schema function).required ↔ p.hasDefault = false)))
    ∧ (auto_generate_schema ⟨0, [⟨"a", .POSITIONAL_OR_KEYWORD, .str, false⟩,
          ⟨"b", .POSITIONAL_OR_KEYWORD, .int, true⟩], none⟩).required = ["a"]
    ∧ (dictGet? (auto_generate_schema ⟨0, [⟨"a", .POSITIONAL_OR_KEYWORD, .str, false⟩,
          ⟨"b", .POSITIONAL_OR_KEYWORD, .int, true⟩], none⟩).properties "b").map (fun s => s.type)
        = some "integer" := by
  refine ⟨?_, by decide, by decide⟩
  intro f hnodup
  have hloop := schema_foldl f.doc f.params [] [] (by intro q hq; simp at hq) hnodup
  have hprops : (auto_generate_schema f).properties
      = (nonVariadic f.params).map
          (fun p => (p.name, (⟨annotTypeString p.annot,
              extract_param_description f.doc p.name⟩ : PropSchema))) := by
    simp [auto_generate_schema, hloop]
  have hreq : (auto_generate_schema f).required
      = ((nonVariadic f.params).filter (fun p => !p.hasDefault)).map (fun p => p.name) := by
    simp [auto_generate_schema, hloop]
  refine ⟨hprops, hreq, ?_, ?_⟩
  · intro p hp
    have hmem : (p.name, (⟨annotTypeString p.annot,
        extract_param_description f.doc p.name⟩ : PropSchema))
        ∈ (auto_generate_schema f).properties := by
      rw [hprops]; exact List.mem_map.mpr ⟨p, hp, rfl⟩
    have hkeys : ((auto_generate_schema f).properties.map (fun q => q.1)).Nodup := by
      rw [hprops, List.map_map]
      simpa [Function.comp] using hnodup
    rw [dictGet?_of_mem_nodup _ _ _ hmem hkeys]
    simp [annotTypeString_eq_specTypeMap]
  · intro p hp
    rw [hreq]
    constructor
    · intro hmem
      obtain ⟨q, hq, hqname⟩ := List.mem_map.mp hmem
      have hqf := List.mem_filter.mp hq
      have : q = p := List.inj_on_of_nodup_map hnodup hqf.1 hp hqname
      rw [← this]
      simpa using hqf.2
    · intro hd
      exact List.mem_map.mpr ⟨p, List.mem_filter.mpr ⟨hp, by simp [hd]⟩, rfl⟩

/-- C6 witness: the general characterisation applied at `f(a: str, b: int = 0)`. -/
theorem c6_auto_schema_witness :
    ((nonVariadic ([⟨"a", .POSITIONAL_OR_KEYWORD, .str, false⟩,
        ⟨"b", .POSITIONAL_OR_KEYWORD, .int, true⟩] : List Param)).map (fun p => p.name)).Nodup
    ∧ (auto_generate_schema ⟨0, [⟨"a", .POSITIONAL_OR_KEYWORD, .str, false⟩,
        ⟨"b", .POSITIONAL_OR_KEYWORD, .int, true⟩], none⟩).properties
      = [("a", ⟨"string", none⟩), ("b", ⟨"integer", none⟩)]
    ∧ (auto_generate_schema ⟨0, [⟨"a", .POSITIONAL_OR_KEYWORD, .str, false⟩,
        ⟨"b", .POSITIONAL_OR_KEYWORD, .int, true⟩], none⟩).required = ["a"] := by
  have h := c6_auto_schema.1 ⟨0, [⟨"a", .POSITIONAL_OR_KEYWORD, .str, false⟩,
    ⟨"b", .POSITIONAL_OR_KEYWORD, .int, true⟩], none⟩ (by decide)
  exact ⟨by decide, h.1.trans (by decide), h.2.1.trans (by decide)⟩

/-! ## C9: snapshot is a defensive copy -/

/-- C9: `get_history` returns a fresh list reference (never the live one)
holding the same contents, the stored history is unchanged by taking the
snapshot, and any mutation through the returned reference leaves the
stored history untouched. -/
theorem c9_snapshot_defensive_copy (h : HistHeap) (f : List Msg → List Msg)
    (wf : h.histRef < h.nextRef) :
    (heap_get_history h).1 ≠ h.histRef
    ∧ (heap_get_history h).2.histRef = h.histRef
    ∧ (heap_get_history h).2.store h.histRef = h.store h.histRef
    ∧ (heap_get_history h).2.store (heap_get_history h).1 = h.store h.histRef
    ∧ (heap_mutate (heap_get_history h).2 (heap_get_history h).1 f).store h.histRef
        = h.store h.histRef := by
  have hne : h.nextRef ≠ h.histRef := ne_of_gt wf
  refine ⟨hne, rfl, ?_, ?_, ?_⟩
  · simp [heap_get_history, hne.symm]
  · simp [heap_get_history]
  · simp [heap_mutate, heap_get_history, hne.symm]

/-- C9 witness: a concrete one-reference heap; appending a message through
the snapshot reference does not change the stored (empty) history. -/
theorem c9_snapshot_defensive_copy_witness :
    (0 : Nat) < 1
    ∧ (heap_get_history ⟨fun _ => [], 0, 1⟩).1 ≠ 0
    ∧ (heap_mutate (heap_get_history ⟨fun _ => [], 0, 1⟩).2
        (heap_get_history ⟨fun _ => [], 0, 1⟩).1
        (fun l => ⟨"user", "x", 0, none, none⟩ :: l)).store 0 = [] := by
  have hthm := c9_snapshot_defensive_copy ⟨fun _ => [], 0, 1⟩
    (fun l => ⟨"user", "x", 0, none, none⟩ :: l) (by decide)
  exact ⟨by decide, hthm.1, hthm.2.2.2.2⟩

/-! ## C5: turn-level error containment -/

/-- Role counts add over append. -/
theorem countRole_append (role : String) (a b : List Msg) :
    countRole role (a ++ b) = countRole role a + countRole role b := by
  simp [countRole, List.filter_append]

/-- The system-role messages kept by a trim contain no error-role message. -/
theorem countRole_error_filter_system (h : List Msg) :
    countRole "error" (h.filter (fun m => m.role == "system")) = 0 := by
  simp only [countRole, List.length_eq_zero, List.filter_eq_nil_iff]
  intro m hm
  have hs : m.role = "system" := by simpa using (List.mem_filter.mp hm).2
  simp [hs]

/-- Keeping a suffix cannot increase a role count. -/
theorem countRole_takeLast_le (role : String) (n : Nat) (h : List Msg) :
    countRole role (takeLast n h) ≤ countRole role h := by
  unfold takeLast
  by_cases hn : n = 0
  · rw [if_pos hn]
  · rw [if_neg hn]
    exact List.Sublist.length_le (List.Sublist.filter _ (List.drop_sublist _ _))

/-- Trimming cannot increase the error count. -/
theorem countRole_error_trim_le (mh : Nat) (h : List Msg) :
    countRole "error" (trimHistory mh h) ≤ countRole "error" h := by
  unfold trimHistory
  by_cases hlen : h.length > mh * 2
  · rw [if_pos hlen, countRole_append, countRole_error_filter_system]
    simpa using countRole_takeLast_le "error" mh h
  · rw [if_neg hlen]

/-- Appending a non-error message cannot increase the error count. -/
theorem add_message_error_le (mh : Nat) (cm : ConversationState) (role content : String)
    (tc : Option (List ToolCall)) (tn : Option String) (h : role ≠ "error") :
    countRole "error" (add_message mh cm role content tc tn).history
      ≤ countRole "error" cm.history := by
  unfold add_message
  refine le_trans (countRole_error_trim_le mh _) ?_
  rw [countRole_append]
  simp [countRole, h]

/-- The tool-result append loop of `_handle_tool_calls` preserves an
error-free history bound. -/
theorem foldl_tool_error_le (mh : Nat) : ∀ (rs : List CtxMsg) (cm : ConversationState),
    countRole "error"
        (rs.foldl (fun c r => add_message mh c "tool" r.content none r.tool_name) cm).history
      ≤ countRole "error" cm.history := by
  intro rs
  induction rs with
  | nil => intro cm; simp
  | cons r t ih =>
    intro cm
    simp only [List.foldl_cons]
    exact le_trans (ih _) (add_message_error_le mh cm "tool" r.content none r.tool_name
      (by decide))

/-- `dispatch_batch` appends only assistant- and tool-role messages. -/
theorem dispatch_batch_error_le (mh : Nat) (exec : String → Args → Except ToolExc String)
    (context : List CtxMsg) (cm : ConversationState) (content : String)
    (tool_calls : List ToolCall) :
    countRole "error" (dispatch_batch mh exec context cm content tool_calls).2.1.history
      ≤ countRole "error" cm.history := by
  unfold dispatch_batch
  exact le_trans (foldl_tool_error_le mh _ _)
    (add_message_error_le mh cm "assistant" content (some tool_calls) none (by decide))

/-- `_handle_tool_calls` never appends an error-role message. -/
theorem handle_tool_calls_error_le (mh : Nat) (exec : String → Args → Except ToolExc String) :
    ∀ (script : List ChatOutcome) (context : List CtxMsg) (cm : ConversationState)
      (content : String) (tool_calls : List ToolCall),
    countRole "error" (handle_tool_calls mh exec script context cm content tool_calls).conv.history
      ≤ countRole "error" cm.history := by
  intro script
  induction script with
  | nil =>
    intro context cm content tool_calls
    exact dispatch_batch_error_le mh exec context cm content tool_calls
  | cons outcome rest ih =>
    intro context cm content tool_calls
    have hbatch := dispatch_batch_error_le mh exec context cm content tool_calls
    cases outcome with
    | llmError e => exact hbatch
    | otherError e => exact hbatch
    | ok m =>
      by_cases hm : m.tool_calls.isEmpty
      · simp only [handle_tool_calls, hm, if_true]
        exact le_trans (add_message_error_le mh _ "assistant" m.content none none (by decide))
          hbatch
      · simp only [handle_tool_calls, hm, if_false]
        exact le_trans (ih _ _ _ _) hbatch

/-- The whole `try` body of a turn never appends an error-role message. -/
theorem process_try_error_le (mh : Nat) (exec : String → Args → Except ToolExc String)
    (sp : String) (ts : List ToolDef) (script : List ChatOutcome) (input : String)
    (cm : ConversationState) :
    countRole "error" (process_try mh exec sp ts script input cm).conv.history
      ≤ countRole "error" cm.history := by
  have huser := add_message_error_le mh cm "user" input none none (by decide)
  cases script with
  | nil => exact huser
  | cons outcome rest =>
    cases outcome with
    | llmError e => exact huser
    | otherError e => exact huser
    | ok m =>
      by_cases hm : m.tool_calls.isEmpty
      · simp only [process_try, hm, if_true]
        exact le_trans (add_message_error_le mh _ "assistant" m.content none none (by decide))
          huser
      · simp only [process_try, hm, if_false]
        exact le_trans (handle_tool_calls_error_le mh exec rest _ _ m.content m.tool_calls)
          huser

/-- Appending one error-role message to an error-free history (with
`max_history ≥ 1`) leaves exactly one error-role message, and it is the
last one. -/
theorem add_error_message_exact (mh : Nat) (cm : ConversationState) (msg : String)
    (h0 : countRole "error" cm.history = 0) (hmh : 1 ≤ mh) :
    countRole "error" (add_message mh cm "error" msg none none).history = 1
    ∧ (add_message mh cm "error" msg none none).history.getLast?
        = some ⟨"error", msg, cm.clock, none, none⟩ := by
  simp only [add_message, trimHistory]
  by_cases hlen : (cm.history ++ [(⟨"error", msg, cm.clock, none, none⟩ : Msg)]).length > mh * 2
  · rw [if_pos hlen]
    have hk : (cm.history ++ [(⟨"error", msg, cm.clock, none, none⟩ : Msg)]).length - mh
        ≤ cm.history.length := by
      simp only [List.length_append, List.length_cons, List.length_nil]
      omega
    have htake : takeLast mh (cm.history ++ [(⟨"error", msg, cm.clock, none, none⟩ : Msg)])
        = cm.history.drop
            ((cm.history ++ [(⟨"error", msg, cm.clock, none, none⟩ : Msg)]).length - mh)
          ++ [(⟨"error", msg, cm.clock, none, none⟩ : Msg)] := by
      unfold takeLast
      rw [if_neg (by omega), List.drop_append_of_le_length hk]
    constructor
    · rw [countRole_append, countRole_error_filter_system, htake, countRole_append]
      have hdrop : countRole "error" (cm.history.drop
          ((cm.history ++ [(⟨"error", msg, cm.clock, none, none⟩ : Msg)]).length - mh)) = 0 := by
        have hle : countRole "error" (cm.history.drop
            ((cm.history ++ [(⟨"error", msg, cm.clock, none, none⟩ : Msg)]).length - mh))
            ≤ countRole "error" cm.history :=
          List.Sublist.length_le (List.Sublist.filter _ (List.drop_sublist _ _))
        omega
      rw [hdrop]
      simp [countRole]
    · rw [htake, ← List.append_assoc]
      exact List.getLast?_concat _
  · rw [if_neg hlen]
    constructor
    · rw [countRole_append, h0]
      simp [countRole]
    · exact List.getLast?_concat _

/-- C5: every exception a turn raises (an `LLMError` from the client —
including the transport timeout, whose message carries the configured
timeout — or any unexpected exception) is caught by `process_message`: the
turn returns the error text, exactly one error-role message is appended to
an error-free history, and it is the last entry.  `process_message` is a
total function of the model, so no exception escapes the call boundary. -/
theorem c5_turn_error_containment (mh : Nat) (exec : String → Args → Except ToolExc String)
    (sp : String) (ts : List ToolDef) (script : List ChatOutcome) (input : String)
    (cm : ConversationState) (e : TurnExc)
    (hmh : 1 ≤ mh) (h0 : countRole "error" cm.history = 0)
    (herr : (process_try mh exec sp ts script input cm).result = Except.error e) :
    (process_message mh exec sp ts script input cm).1 = turn_error_text e
    ∧ countRole "error" (process_message mh exec sp ts script input cm).2.1.history = 1
    ∧ ((process_message mh exec sp ts script input cm).2.1.history.getLast?).map
        (fun m => (m.role, m.content)) = some ("error", turn_error_text e) := by
  have hle := process_try_error_le mh exec sp ts script input cm
  have h0' : countRole "error" (process_try mh exec sp ts script input cm).conv.history = 0 := by
    omega
  have hpm : process_message mh exec sp ts script input cm
      = (turn_error_text e,
         add_message mh (process_try mh exec sp ts script input cm).conv "error"
           (turn_error_text e) none none,
         (process_try mh exec sp ts script input cm).tool_invocations,
         (process_try mh exec sp ts script input cm).llm_calls) := by
    simp only [process_message]
    rw [herr]
  have hexact := add_error_message_exact mh (process_try mh exec sp ts script input cm).conv
    (turn_error_text e) h0' hmh
  rw [hpm]
  refine ⟨rfl, hexact.1, ?_⟩
  rw [hexact.2]
  rfl

/-- C5 witness: the stubbed client raises the transport timeout
(`LLMTimeoutError(30)`, the default configured timeout); the turn returns
the timeout text (which contains `"30"`) and records one error entry. -/
theorem c5_turn_error_containment_witness :
    countRole "error" emptyConversation.history = 0
    ∧ (process_try 10 (fun _ _ => Except.ok "") "sys" []
        [ChatOutcome.llmError (llm_timeout_error_message 30)] "hi" emptyConversation).result
      = Except.error (TurnExc.llm (llm_timeout_error_message 30))
    ∧ (process_message 10 (fun _ _ => Except.ok "") "sys" []
        [ChatOutcome.llmError (llm_timeout_error_message 30)] "hi" emptyConversation).1
      = "LLM Error: LLM request timed out after 30 seconds"
    ∧ countRole "error" (process_message 10 (fun _ _ => Except.ok "") "sys" []
        [ChatOutcome.llmError (llm_timeout_error_message 30)] "hi"
        emptyConversation).2.1.history = 1
    ∧ strContains (process_message 10 (fun _ _ => Except.ok "") "sys" []
        [ChatOutcome.llmError (llm_timeout_error_message 30)] "hi" emptyConversation).1
        "30" = true := by
  have hthm := c5_turn_error_containment 10 (fun _ _ => Except.ok "") "sys" []
    [ChatOutcome.llmError (llm_timeout_error_message 30)] "hi" emptyConversation
    (TurnExc.llm (llm_timeout_error_message 30)) (by omega) (by decide) (by rfl)
  exact ⟨by decide, by rfl, hthm.1.trans (by decide), hthm.2.1, by decide⟩

/-! ## C3: partial tool-batch failure isolation -/

/-- C3: with two tool-call requests in the assistant message and the second
tool raising, both requests are attempted in order (both reach
`registry.execute_tool`), the results carry a tool-role entry for call 1
with its real result and a tool-role entry for call 2 with the error
description, and the turn completes normally — `process_message` returns
the follow-up content instead of propagating the exception. -/
theorem c3_partial_batch_failure (mh : Nat) (exec : String → Args → Except ToolExc String)
    (n1 n2 : String) (a1 a2 : Args) (r1 em ac fc input sp : String) (ts : List ToolDef)
    (hmh : 3 ≤ mh) (hn1 : n1 ≠ "") (hn2 : n2 ≠ "")
    (hx1 : exec n1 a1 = Except.ok r1)
    (hx2 : exec n2 a2 = Except.error (ToolExc.toolError em)) :
    (process_message mh exec sp ts
        [ChatOutcome.ok ⟨ac, [⟨some n1, a1⟩, ⟨some n2, a2⟩]⟩, ChatOutcome.ok ⟨fc, []⟩]
        input emptyConversation).1 = fc
    ∧ (process_message mh exec sp ts
        [ChatOutcome.ok ⟨ac, [⟨some n1, a1⟩, ⟨some n2, a2⟩]⟩, ChatOutcome.ok ⟨fc, []⟩]
        input emptyConversation).2.2.1 = [(n1, a1), (n2, a2)]
    ∧ (process_message mh exec sp ts
        [ChatOutcome.ok ⟨ac, [⟨some n1, a1⟩, ⟨some n2, a2⟩]⟩, ChatOutcome.ok ⟨fc, []⟩]
        input emptyConversation).2.1.history
      = [⟨"user", input, 0, none, none⟩,
         ⟨"assistant", ac, 1, some [⟨some n1, a1⟩, ⟨some n2, a2⟩], none⟩,
         ⟨"tool", r1, 2, none, some n1⟩,
         ⟨"tool", "Tool execution failed: " ++ em, 3, none, some n2⟩,
         ⟨"assistant", fc, 4, none, none⟩] := by
  have h1e : n1.isEmpty = false := by
    rw [Bool.eq_false_iff]
    exact fun h => hn1 ((String.isEmpty_iff n1).mp h)
  have h2e : n2.isEmpty = false := by
    rw [Bool.eq_false_iff]
    exact fun h => hn2 ((String.isEmpty_iff n2).mp h)
  have hl1 : ¬ ((1 : Nat) > mh * 2) := by omega
  have hl2 : ¬ ((2 : Nat) > mh * 2) := by omega
  have hl3 : ¬ ((3 : Nat) > mh * 2) := by omega
  have hl4 : ¬ ((4 : Nat) > mh * 2) := by omega
  have hl5 : ¬ ((5 : Nat) > mh * 2) := by omega
  refine ⟨?_, ?_, ?_⟩ <;>
    simp [process_message, process_try, handle_tool_calls, dispatch_batch,
      execute_tools, execOneToolCall, add_message, trimHistory, emptyConversation,
      hx1, hx2, h1e, h2e, hl1, hl2, hl3, hl4, hl5, toolExcStr]

/-- C3 witness: a concrete two-call batch whose second tool raises. -/
theorem c3_partial_batch_failure_witness :
    ((fun n _ => if n = "t1" then Except.ok "R1"
        else Except.error (ToolExc.toolError "boom") : String → Args → Except ToolExc String)
      "t1" [("x", "1")] = Except.ok "R1")
    ∧ (process_message 10
        (fun n _ => if n = "t1" then Except.ok "R1" else Except.error (ToolExc.toolError "boom"))
        "sys" [] [ChatOutcome.ok ⟨"calling", [⟨some "t1", [("x", "1")]⟩, ⟨some "t2", []⟩]⟩,
          ChatOutcome.ok ⟨"done", []⟩] "hi" emptyConversation).1 = "done"
    ∧ (process_message 10
        (fun n _ => if n = "t1" then Except.ok "R1" else Except.error (ToolExc.toolError "boom"))
        "sys" [] [ChatOutcome.ok ⟨"calling", [⟨some "t1", [("x", "1")]⟩, ⟨some "t2", []⟩]⟩,
          ChatOutcome.ok ⟨"done", []⟩] "hi" emptyConversation).2.2.1
      = [("t1", [("x", "1")]), ("t2", [])]
    ∧ (process_message 10
        (fun n _ => if n = "t1" then Except.ok "R1" else Except.error (ToolExc.toolError "boom"))
        "sys" [] [ChatOutcome.ok ⟨"calling", [⟨some "t1", [("x", "1")]⟩, ⟨some "t2", []⟩]⟩,
          ChatOutcome.ok ⟨"done", []⟩] "hi" emptyConversation).2.1.history
      = [⟨"user", "hi", 0, none, none⟩,
         ⟨"assistant", "calling", 1, some [⟨some "t1", [("x", "1")]⟩, ⟨some "t2", []⟩], none⟩,
         ⟨"tool", "R1", 2, none, some "t1"⟩,
         ⟨"tool", "Tool execution failed: boom", 3, none, some "t2"⟩,
         ⟨"assistant", "done", 4, none, none⟩] := by
  have hthm := c3_partial_batch_failure 10
    (fun n _ => if n = "t1" then Except.ok "R1" else Except.error (ToolExc.toolError "boom"))
    "t1" "t2" [("x", "1")] [] "R1" "boom" "calling" "done" "hi" "sys" []
    (by omega) (by decide) (by decide) (by rfl) (by rfl)
  exact ⟨by rfl, hthm.1, hthm.2.1, hthm.2.2⟩

/-! ## C4: single-tool chaining -/

/-- C4: one tool-call request in round 1, a plain content reply in round 2,
tool stub returning `"42"`: the tool is invoked exactly once with the
parsed arguments, exactly one tool-role history entry is appended with
content `"42"`, and `process_message` returns round 2's content. -/
theorem c4_single_tool_chaining (mh : Nat) (exec : String → Args → Except ToolExc String)
    (n : String) (a : Args) (ac fc input sp : String) (ts : List ToolDef)
    (hmh : 2 ≤ mh) (hn : n ≠ "") (hx : exec n a = Except.ok "42") :
    (process_message mh exec sp ts
        [ChatOutcome.ok ⟨ac, [⟨some n, a⟩]⟩, ChatOutcome.ok ⟨fc, []⟩]
        input emptyConversation).1 = fc
    ∧ (process_message mh exec sp ts
        [ChatOutcome.ok ⟨ac, [⟨some n, a⟩]⟩, ChatOutcome.ok ⟨fc, []⟩]
        input emptyConversation).2.2.1 = [(n, a)]
    ∧ (process_message mh exec sp ts
        [ChatOutcome.ok ⟨ac, [⟨some n, a⟩]⟩, ChatOutcome.ok ⟨fc, []⟩]
        input emptyConversation).2.1.history
      = [⟨"user", input, 0, none, none⟩,
         ⟨"assistant", ac, 1, some [⟨some n, a⟩], none⟩,
         ⟨"tool", "42", 2, none, some n⟩,
         ⟨"assistant", fc, 3, none, none⟩]
    ∧ ((process_message mh exec sp ts
        [ChatOutcome.ok ⟨ac, [⟨some n, a⟩]⟩, ChatOutcome.ok ⟨fc, []⟩]
        input emptyConversation).2.1.history.filter (fun m => m.role == "tool")).length = 1 := by
  have hne : n.isEmpty = false := by
    rw [Bool.eq_false_iff]
    exact fun h => hn ((String.isEmpty_iff n).mp h)
  have hl1 : ¬ ((1 : Nat) > mh * 2) := by omega
  have hl2 : ¬ ((2 : Nat) > mh * 2) := by omega
  have hl3 : ¬ ((3 : Nat) > mh * 2) := by omega
  have hl4 : ¬ ((4 : Nat) > mh * 2) := by omega
  refine ⟨?_, ?_, ?_, ?_⟩ <;>
    simp [process_message, process_try, handle_tool_calls, dispatch_batch,
      execute_tools, execOneToolCall, add_message, trimHistory, emptyConversation,
      hx, hne, hl1, hl2, hl3, hl4]

/-- C4 witness: a concrete single-call chain with tool result `"42"`. -/
theorem c4_single_tool_chaining_witness :
    ((fun _ _ => Except.ok "42" : String → Args → Except ToolExc String) "calc" [("q", "6*7")]
      = Except.ok "42")
    ∧ (process_message 10 (fun _ _ => Except.ok "42") "sys" []
        [ChatOutcome.ok ⟨"calling", [⟨some "calc", [("q", "6*7")]⟩]⟩,
          ChatOutcome.ok ⟨"the answer is 42", []⟩] "hi" emptyConversation).1
      = "the answer is 42"
    ∧ (process_message 10 (fun _ _ => Except.ok "42") "sys" []
        [ChatOutcome.ok ⟨"calling", [⟨some "calc", [("q", "6*7")]⟩]⟩,
          ChatOutcome.ok ⟨"the answer is 42", []⟩] "hi" emptyConversation).2.2.1
      = [("calc", [("q", "6*7")])]
    ∧ ((process_message 10 (fun _ _ => Except.ok "42") "sys" []
        [ChatOutcome.ok ⟨"calling", [⟨some "calc", [("q", "6*7")]⟩]⟩,
          ChatOutcome.ok ⟨"the answer is 42", []⟩] "hi"
        emptyConversation).2.1.history.filter (fun m => m.role == "tool")).length = 1 := by
  have hthm := c4_single_tool_chaining 10 (fun _ _ => Except.ok "42") "calc" [("q", "6*7")]
    "calling" "the answer is 42" "hi" "sys" [] (by omega) (by decide) (by rfl)
  exact ⟨by rfl, hthm.1, hthm.2.1, hthm.2.2.2⟩

/-! ## C8: tools offered only on the first call of a turn -/

/-- Every `chat` invocation made by `_handle_tool_calls` (all continuation
calls) passes no tools argument. -/
theorem handle_tool_calls_llm_calls_none (mh : Nat)
    (exec : String → Args → Except ToolExc String) :
    ∀ (script : List ChatOutcome) (context : List CtxMsg) (cm : ConversationState)
      (content : String) (tool_calls : List ToolCall),
    ∃ n, (handle_tool_calls mh exec script context cm content tool_calls).llm_calls
      = List.replicate n (none : Option (List ToolDef)) := by
  intro script
  induction script with
  | nil => intro context cm content tool_calls; exact ⟨1, rfl⟩
  | cons outcome rest ih =>
    intro context cm content tool_calls
    cases outcome with
    | llmError e => exact ⟨1, rfl⟩
    | otherError e => exact ⟨1, rfl⟩
    | ok m =>
      by_cases hm : m.tool_calls.isEmpty
      · exact ⟨1, by simp [handle_tool_calls, hm]⟩
      · obtain ⟨n, hn⟩ := ih (dispatch_batch mh exec context cm content tool_calls).1
          (dispatch_batch mh exec context cm content tool_calls).2.1 m.content m.tool_calls
        exact ⟨n + 1, by simp [handle_tool_calls, hm, hn, List.replicate_succ]⟩

/-- C8: within a single turn, the first LLM invocation passes the tools
schema and every continuation invocation after a tool-call batch passes no
tools schema. -/
theorem c8_tools_first_call_only (mh : Nat) (exec : String → Args → Except ToolExc String)
    (sp : String) (ts : List ToolDef) (script : List ChatOutcome) (input : String)
    (cm : ConversationState) :
    (process_message mh exec sp ts script input cm).2.2.2.head? = some (some ts)
    ∧ (process_message mh exec sp ts script input cm).2.2.2.drop 1
      = List.replicate ((process_message mh exec sp ts script input cm).2.2.2.length - 1)
          (none : Option (List ToolDef)) := by
  have hcalls : (process_message mh exec sp ts script input cm).2.2.2
      = (process_try mh exec sp ts script input cm).llm_calls := by
    cases hr : (process_try mh exec sp ts script input cm).result <;>
      simp [process_message, hr]
  have hshape : ∃ n, (process_try mh exec sp ts script input cm).llm_calls
      = some ts :: List.replicate n (none : Option (List ToolDef)) := by
    cases script with
    | nil => exact ⟨0, rfl⟩
    | cons outcome rest =>
      cases outcome with
      | llmError e => exact ⟨0, rfl⟩
      | otherError e => exact ⟨0, rfl⟩
      | ok m =>
        by_cases hm : m.tool_calls.isEmpty
        · exact ⟨0, by simp [process_try, hm]⟩
        · obtain ⟨n, hn⟩ := handle_tool_calls_llm_calls_none mh exec rest
            (get_context_messages mh sp (add_message mh cm "user" input none none).history)
            (add_message mh cm "user" input none none) m.content m.tool_calls
          exact ⟨n, by simp [process_try, hm, hn]⟩
  obtain ⟨n, hn⟩ := hshape
  rw [hcalls, hn]
  constructor
  · rfl
  · simp

/-! ## C10: registry map consistency -/

/-- Membership after a dict write: the old entries, or the written pair. -/
theorem dictSet_mem {α : Type} (d : List (String × α)) (k : String) (v : α)
    (p : String × α) (hp : p ∈ dictSet d k v) : p ∈ d ∨ p = (k, v) := by
  unfold dictSet at hp
  by_cases hc : d.any (fun q => q.1 == k) = true
  · rw [if_pos hc] at hp
    obtain ⟨q, hq, hqp⟩ := List.mem_map.mp hp
    by_cases hqk : q.1 = k
    · right; rw [← hqp]; simp [hqk]
    · left; rw [← hqp]; simpa [hqk] using hq
  · rw [if_neg hc] at hp
    rcases List.mem_append.mp hp with h | h
    · exact Or.inl h
    · exact Or.inr (List.mem_singleton.mp h)

/-- Projecting values commutes with a dict write. -/
theorem map_dictSet {α β : Type} (g : α → β) (d : List (String × α)) (k : String) (v : α) :
    (dictSet d k v).map (fun p => (p.1, g p.2))
      = dictSet (d.map (fun p => (p.1, g p.2))) k (g v) := by
  unfold dictSet
  have hany : (d.map (fun p => (p.1, g p.2))).any (fun p => p.1 == k)
      = d.any (fun p => p.1 == k) := by
    induction d with
    | nil => rfl
    | cons q t ih => simp only [List.map_cons, List.any_cons, ih]
  rw [hany]
  by_cases hc : d.any (fun p => p.1 == k) = true
  · rw [if_pos hc, if_pos hc, List.map_map, List.map_map]
    apply List.map_congr_left
    intro p _
    by_cases hpk : p.1 = k
    · simp [Function.comp, hpk]
    · simp [Function.comp, hpk]
  · rw [if_neg hc, if_neg hc, List.map_append]
    rfl

/-- `find?` over an overwrite-in-place update. -/
theorem find?_map_update {α : Type} (k k' : String) (v : α) : ∀ (d : List (String × α)),
    (d.map (fun p => if p.1 == k then (k, v) else p)).find? (fun p => p.1 == k')
      = if k' = k
        then (d.find? (fun p => p.1 == k)).map (fun _ => (k, v))
        else d.find? (fun p => p.1 == k') := by
  intro d
  induction d with
  | nil => by_cases h : k' = k <;> simp [h]
  | cons q t ih =>
    have hmapc : (q :: t).map (fun p => if p.1 == k then (k, v) else p)
        = (if q.1 == k then (k, v) else q)
          :: t.map (fun p => if p.1 == k then (k, v) else p) := rfl
    rw [hmapc]
    by_cases hq : q.1 = k
    · have hhead : (if q.1 == k then (k, v) else q) = (k, v) := by simp [hq]
      rw [hhead]
      by_cases hk : k' = k
      · subst hk
        rw [List.find?_cons_of_pos _ (by simp), if_pos rfl,
          List.find?_cons_of_pos _ (by simp [hq])]
        rfl
      · rw [List.find?_cons_of_neg _ (by simp; exact fun h => hk h.symm), ih,
          if_neg hk, if_neg hk,
          List.find?_cons_of_neg _ (by simp [hq]; exact fun h => hk h.symm)]
    · have hhead : (if q.1 == k then (k, v) else q) = q := by simp [hq]
      rw [hhead]
      by_cases hqk : q.1 = k'
      · have hk : ¬ (k' = k) := fun h => hq (by rw [hqk, h])
        rw [List.find?_cons_of_pos _ (by simp [hqk]), if_neg hk,
          List.find?_cons_of_pos _ (by simp [hqk])]
      · rw [List.find?_cons_of_neg _ (by simp [hqk]), ih]
        by_cases hk : k' = k
        · rw [if_pos hk, if_pos hk, List.find?_cons_of_neg _ (by simp [hq])]
        · rw [if_neg hk, if_neg hk, List.find?_cons_of_neg _ (by simp [hqk])]

/-- A dict lookup after a dict write: the written value at the written key,
the old lookup elsewhere. -/
theorem dictGet?_dictSet {α : Type} (d : List (String × α)) (k k' : String) (v : α) :
    dictGet? (dictSet d k v) k' = if k' = k then some v else dictGet? d k' := by
  by_cases hc : d.any (fun p => p.1 == k) = true
  · unfold dictSet dictGet?
    rw [if_pos hc, find?_map_update]
    by_cases hk : k' = k
    · rw [if_pos hk, if_pos hk]
      obtain ⟨p, hp, hpk⟩ := List.any_eq_true.mp hc
      have hsome : ∃ x, d.find? (fun p => p.1 == k) = some x := by
        cases hf : d.find? (fun p => p.1 == k) with
        | some x => exact ⟨x, rfl⟩
        | none => exact absurd hpk (List.find?_eq_none.mp hf p hp)
      obtain ⟨x, hx⟩ := hsome
      rw [hx]
      rfl
    · rw [if_neg hk, if_neg hk]
  · have hc' : d.any (fun p => p.1 == k) = false := Bool.eq_false_iff.mpr hc
    unfold dictSet dictGet?
    rw [if_neg hc]
    rw [List.find?_append]
    by_cases hk : k' = k
    · rw [if_pos hk]
      have hnone : d.find? (fun p => p.1 == k') = none := by
        subst hk
        rw [List.find?_eq_none]
        intro x hx hxk
        have hany : d.any (fun p => p.1 == k') = true := List.any_eq_true.mpr ⟨x, hx, hxk⟩
        rw [hc'] at hany
        exact Bool.false_ne_true hany
      rw [hnone]
      simp [hk]
    · rw [if_neg hk]
      cases hf : d.find? (fun p => p.1 == k') with
      | some x => simp [hf]
      | none =>
        have hkk' : ¬ (k = k') := fun h => hk h.symm
        simp [hf, hkk']

/-- `register_tool` writes the metadata entry with the registered name and
function (the defaulted fields do not matter here). -/
theorem register_tool_tool_info_spec (R : ToolRegistryState) (n : String) (f : PyFunc)
    (d : Option String) (c : Option String) (s : Option Schema) :
    ∃ info : ToolInfo,
      (register_tool R n f d c s).tool_info = dictSet R.tool_info n info
      ∧ info.name = n ∧ info.function = f :=
  ⟨_, rfl, rfl, rfl⟩

/-- One `register_tool` call preserves the two-map invariant: the dispatch
map is the function projection of the metadata map, and metadata records
its own key as its name. -/
theorem register_tool_preserves_inv (R : ToolRegistryState) (n : String) (f : PyFunc)
    (d : Option String) (c : Option String) (s : Option Schema)
    (h1 : R.tools = R.tool_info.map (fun p => (p.1, p.2.function)))
    (h2 : ∀ p ∈ R.tool_info, p.2.name = p.1) :
    (register_tool R n f d c s).tools
        = (register_tool R n f d c s).tool_info.map (fun p => (p.1, p.2.function))
    ∧ (∀ p ∈ (register_tool R n f d c s).tool_info, p.2.name = p.1) := by
  obtain ⟨info, hti, hnm, hfn⟩ := register_tool_tool_info_spec R n f d c s
  constructor
  · have htools : (register_tool R n f d c s).tools = dictSet R.tools n f := rfl
    rw [htools, hti, map_dictSet, ← h1, hfn]
  · intro p hp
    rw [hti] at hp
    rcases dictSet_mem _ _ _ p hp with h | h
    · exact h2 p h
    · rw [h]
      simpa using hnm

/-- The invariant holds after any registration sequence on an
invariant-satisfying start state. -/
theorem applyRegCalls_inv : ∀ (regs : List RegCall) (R : ToolRegistryState),
    R.tools = R.tool_info.map (fun p => (p.1, p.2.function)) →
    (∀ p ∈ R.tool_info, p.2.name = p.1) →
    (applyRegCalls regs R).tools
        = (applyRegCalls regs R).tool_info.map (fun p => (p.1, p.2.function))
    ∧ (∀ p ∈ (applyRegCalls regs R).tool_info, p.2.name = p.1) := by
  intro regs
  induction regs with
  | nil => intro R h1 h2; exact ⟨h1, h2⟩
  | cons c t ih =>
    intro R h1 h2
    have hpres := register_tool_preserves_inv R c.name c.function c.description
      c.category c.schema h1 h2
    have hstep : applyRegCalls (c :: t) R
        = applyRegCalls t (register_tool R c.name c.function c.description
            c.category c.schema) := rfl
    rw [hstep]
    exact ih _ hpres.1 hpres.2

/-- Peeling one call off `lastRegistered`. -/
theorem lastRegistered_cons (c : RegCall) (t : List RegCall) (name : String) :
    lastRegistered (c :: t) name
      = match lastRegistered t name with
        | some x => some x
        | none => if c.name == name then some c else none := by
  unfold lastRegistered
  rw [List.filter_cons]
  by_cases hc : (c.name == name) = true
  · rw [if_pos hc]
    cases hft : t.filter (fun x => x.name == name) with
    | nil => simp [hft, hc]
    | cons y ys =>
      rw [List.getLast?_cons_cons]
      cases hgl : (y :: ys).getLast? with
      | none =>
        exfalso
        have hs := (List.getLast?_isSome (l := y :: ys)).mpr (by simp)
        rw [hgl] at hs
        simp at hs
      | some z => rfl
  · rw [if_neg hc]
    cases hgl : (t.filter (fun x => x.name == name)).getLast? with
    | none => simp [hgl, hc]
    | some z => rfl

/-- The dispatch-map lookup after a registration sequence resolves to the
most recent registration, falling back to the start state. -/
theorem applyRegCalls_lookup (name : String) : ∀ (regs : List RegCall)
    (R : ToolRegistryState),
    dictGet? (applyRegCalls regs R).tools name
      = match lastRegistered regs name with
        | some c => some c.function
        | none => dictGet? R.tools name := by
  intro regs
  induction regs with
  | nil => intro R; rfl
  | cons c t ih =>
    intro R
    have hstep : applyRegCalls (c :: t) R
        = applyRegCalls t (register_tool R c.name c.function c.description
            c.category c.schema) := rfl
    rw [hstep, ih, lastRegistered_cons]
    cases hlt : lastRegistered t name with
    | some x => rfl
    | none =>
      have hreg : (register_tool R c.name c.function c.description c.category
          c.schema).tools = dictSet R.tools c.name c.function := rfl
      rw [hreg, dictGet?_dictSet]
      by_cases h : c.name = name
      · simp [h]
      · simp [h, Ne.symm h]

/-- An absent key is exactly one outside the key list. -/
theorem dictGet?_eq_none_iff {α : Type} (d : List (String × α)) (k : String) :
    dictGet? d k = none ↔ k ∉ d.map (fun p => p.1) := by
  unfold dictGet?
  rw [Option.map_eq_none', List.find?_eq_none]
  constructor
  · intro h hmem
    obtain ⟨p, hp, hpk⟩ := List.mem_map.mp hmem
    exact h p hp (by simp [hpk])
  · intro h p hp hpk
    exact h (List.mem_map.mpr ⟨p, hp, by simpa using hpk⟩)

/-- C10: after any sequence of `register_tool` calls on a fresh registry,
the dispatch map is the function projection of the metadata map (same keys,
matching callables); `execute_tool` signals `ToolNotFoundError` exactly for
names absent from `get_tools_schema`'s output; the dispatch entry for every
name is the most recently registered handler, and `execute_tool` invokes
exactly that handler. -/
theorem c10_registry_consistency (regs : List RegCall) :
    (applyRegCalls regs emptyRegistry).tools
        = (applyRegCalls regs emptyRegistry).tool_info.map (fun p => (p.1, p.2.function))
    ∧ (applyRegCalls regs emptyRegistry).tools.map (fun p => p.1)
        = (applyRegCalls regs emptyRegistry).tool_info.map (fun p => p.1)
    ∧ (∀ (apply : PyFunc → Args → HandlerOutcome) (name : String) (kwargs : Args),
        execute_tool apply (applyRegCalls regs emptyRegistry) name kwargs
            = Except.error (ToolExc.notFound name)
          ↔ name ∉ (get_tools_schema (applyRegCalls regs emptyRegistry)).map
              (fun td => td.function.name))
    ∧ (∀ name : String,
        dictGet? (applyRegCalls regs emptyRegistry).tools name
          = (lastRegistered regs name).map (fun c => c.function))
    ∧ (∀ (apply : PyFunc → Args → HandlerOutcome) (name : String) (kwargs : Args)
        (c : RegCall), lastRegistered regs name = some c →
        execute_tool apply (applyRegCalls regs emptyRegistry) name kwargs
          = wrapHandlerOutcome name (apply c.function kwargs)) := by
  have hinv := applyRegCalls_inv regs emptyRegistry rfl
    (by intro p hp; simp [emptyRegistry] at hp)
  have hlookup : ∀ name, dictGet? (applyRegCalls regs emptyRegistry).tools name
      = (lastRegistered regs name).map (fun c => c.function) := by
    intro name
    rw [applyRegCalls_lookup name regs emptyRegistry]
    cases hlt : lastRegistered regs name with
    | some c => rfl
    | none => rfl
  have hnames : (get_tools_schema (applyRegCalls regs emptyRegistry)).map
      (fun td => td.function.name)
      = (applyRegCalls regs emptyRegistry).tool_info.map (fun p => p.1) := by
    unfold get_tools_schema
    rw [List.map_map]
    exact List.map_congr_left (fun p hp => hinv.2 p hp)
  have hkeys : (applyRegCalls regs emptyRegistry).tools.map (fun p => p.1)
      = (applyRegCalls regs emptyRegistry).tool_info.map (fun p => p.1) := by
    rw [hinv.1, List.map_map]
    rfl
  refine ⟨hinv.1, hkeys, ?_, hlookup, ?_⟩
  · intro apply name kwargs
    rw [hnames, ← hkeys]
    cases hget : dictGet? (applyRegCalls regs emptyRegistry).tools name with
    | none =>
      have hout : name ∉ (applyRegCalls regs emptyRegistry).tools.map (fun p => p.1) :=
        (dictGet?_eq_none_iff _ _).mp hget
      simp [execute_tool, hget, hout]
    | some f =>
      have hmem : name ∈ (applyRegCalls regs emptyRegistry).tools.map (fun p => p.1) := by
        unfold dictGet? at hget
        cases hf : (applyRegCalls regs emptyRegistry).tools.find? (fun p => p.1 == name) with
        | none => rw [hf] at hget; simp at hget
        | some p0 =>
          have hp0 : p0 ∈ (applyRegCalls regs emptyRegistry).tools :=
            List.mem_of_find?_eq_some hf
          have hkey := List.find?_some hf
          exact List.mem_map.mpr ⟨p0, hp0, by simpa using hkey⟩
      have hne : execute_tool apply (applyRegCalls regs emptyRegistry) name kwargs
          ≠ Except.error (ToolExc.notFound name) := by
        cases houtc : apply f kwargs <;>
          simp [execute_tool, hget, wrapHandlerOutcome, houtc]
      simp [hne, hmem]
  · intro apply name kwargs c hlast
    have hget : dictGet? (applyRegCalls regs emptyRegistry).tools name = some c.function := by
      rw [hlookup name, hlast]
      rfl
    simp [execute_tool, hget]

/-- C10 witness: registering `"t"` twice; `execute_tool` invokes only the
second handler. -/
theorem c10_registry_consistency_witness :
    lastRegistered [⟨"t", ⟨1, [], none⟩, none, none, none⟩,
        ⟨"t", ⟨2, [], none⟩, none, none, none⟩] "t"
      = some ⟨"t", ⟨2, [], none⟩, none, none, none⟩
    ∧ execute_tool (fun f _ => if f.fid = 2 then HandlerOutcome.ok "two"
          else HandlerOutcome.ok "one")
        (applyRegCalls [⟨"t", ⟨1, [], none⟩, none, none, none⟩,
          ⟨"t", ⟨2, [], none⟩, none, none, none⟩] emptyRegistry) "t" []
      = Except.ok "two" := by
  have hlast : lastRegistered [⟨"t", ⟨1, [], none⟩, none, none, none⟩,
      ⟨"t", ⟨2, [], none⟩, none, none, none⟩] "t"
      = some ⟨"t", ⟨2, [], none⟩, none, none, none⟩ := by decide
  have happ := (c10_registry_consistency [⟨"t", ⟨1, [], none⟩, none, none, none⟩,
      ⟨"t", ⟨2, [], none⟩, none, none, none⟩]).2.2.2.2
    (fun f _ => if f.fid = 2 then HandlerOutcome.ok "two" else HandlerOutcome.ok "one")
    "t" [] ⟨"t", ⟨2, [], none⟩, none, none, none⟩ hlast
  exact ⟨hlast, happ.trans (by rfl)⟩

end Agent
